import Mathlib

/-!
# job_seekers: a CRUD service over Person and Address

A shallow embedding of `main.go`.  The handlers are translated statement by
statement; the ORM calls they make (`First`, `Related`, `Create`, `Updates`,
`Delete` of `github.com/jinzhu/gorm`) are given as functions on an explicit
store, following the SQL that library issues.

What the embedding takes from the libraries:

* `regexp`: with `^` and `$` and no flag, `MatchString` matches the whole input.
* `net/http`: `WriteHeader` fixes the status once; every `Write` appends to the
  body, also after the header went out; `http.Error` writes the status and one line.
* `encoding/json`: the decoded request is the struct `Decode` leaves behind.
* gorm, reading: `First(&x, s)` with a string `s` compares the primary key with `s`
  when `s` is digits (and white space), and otherwise puts `s` into the WHERE clause;
  every query skips rows whose `deleted_at` is set.
* gorm, deleting: a model with a `DeletedAt` field is soft-deleted by an UPDATE, and
  the condition on the primary key is added only when the struct's key is not zero.
* gorm, writing: `Create` inserts a non-zero `ID` as given; `Updates` with a struct
  writes its non-blank fields; the tag `unique_index` is a unique index on the
  column, over every row of the table.

Strings are sequences of characters, times are numbers, and text columns hold any
string.  Keys are natural numbers; the range of the database's integer type is
left out, as no stored key lies outside it.

* Part 1: regular expressions and the email check `isEmailValid`.
* Part 2: the data model, the store and the ORM operations.
* Part 3: the response writer and the handlers.
* Part 4: the properties.
-/

namespace JobSeekers

/-! ## Part 1: regular expressions -/

/-- Regular expressions over characters, with character classes as predicates. -/
inductive Regex where
  | nothing : Regex
  | eps : Regex
  | cls (p : Char → Bool) : Regex
  | cat (r s : Regex) : Regex
  | alt (r s : Regex) : Regex
  | star (r : Regex) : Regex

namespace Regex

/-- The words of a regular expression. -/
inductive Accepts : Regex → List Char → Prop where
  | eps : Accepts Regex.eps []
  | cls (p : Char → Bool) (c : Char) (h : p c = true) : Accepts (Regex.cls p) [c]
  | cat (r s : Regex) (u v : List Char) (hu : Accepts r u) (hv : Accepts s v) :
      Accepts (Regex.cat r s) (u ++ v)
  | altL (r s : Regex) (u : List Char) (hu : Accepts r u) : Accepts (Regex.alt r s) u
  | altR (r s : Regex) (u : List Char) (hu : Accepts s u) : Accepts (Regex.alt r s) u
  | starNil (r : Regex) : Accepts (Regex.star r) []
  | starCons (r : Regex) (u v : List Char) (hu : Accepts r u) (hv : Accepts (Regex.star r) v) :
      Accepts (Regex.star r) (u ++ v)

/-- Does the expression accept the empty word? -/
def nullable : Regex → Bool
  | nothing => false
  | eps => true
  | cls _ => false
  | cat r s => nullable r && nullable s
  | alt r s => nullable r || nullable s
  | star _ => true

/-- Brzozowski derivative: the words `w` with `c :: w` accepted. -/
def deriv : Regex → Char → Regex
  | nothing, _ => nothing
  | eps, _ => nothing
  | cls p, c => if p c then eps else nothing
  | cat r s, c => if nullable r then alt (cat (deriv r c) s) (deriv s c) else cat (deriv r c) s
  | alt r s, c => alt (deriv r c) (deriv s c)
  | star r, c => cat (deriv r c) (star r)

/-- Whole-input match of a list of characters. -/
def matchList (r : Regex) : List Char → Bool
  | [] => nullable r
  | c :: w => matchList (deriv r c) w

/-- The method `MatchString` of a pattern `^r$`: both anchors are present and the
multi-line flag is off, so the match has to cover the whole input. -/
def matchString (r : Regex) (s : String) : Bool := matchList r s.data

/-- The class of one character. -/
def chr (c : Char) : Regex := cls (fun d => d == c)

/-- One or more: `r+`. -/
def plus (r : Regex) : Regex := cat r (star r)

/-- Zero or one: `r?`. -/
def opt (r : Regex) : Regex := alt r eps

/-- Between two and four: `r{2,4}`, that is `rr(r(r)?)?`. -/
def rep24 (r : Regex) : Regex := cat r (cat r (opt (cat r (opt r))))

end Regex

/-- The range `a-z`. -/
def isLower (c : Char) : Bool := decide ('a' ≤ c) && decide (c ≤ 'z')

/-- The range `0-9`. -/
def isDigit (c : Char) : Bool := decide ('0' ≤ c) && decide (c ≤ '9')

/-- The class `[a-z0-9._%+\-]`. -/
def localClass (c : Char) : Bool :=
  isLower c || isDigit c || c == '.' || c == '_' || c == '%' || c == '+' || c == '-'

/-- The class `[a-z0-9.\-]`. -/
def domainClass (c : Char) : Bool :=
  isLower c || isDigit c || c == '.' || c == '-'

/-- The pattern of `isEmailValid` between its anchors:
`[a-z0-9._%+\-]+@[a-z0-9.\-]+\.[a-z]{2,4}`. -/
def emailRegex : Regex :=
  Regex.cat (Regex.plus (Regex.cls localClass))
    (Regex.cat (Regex.chr '@')
      (Regex.cat (Regex.plus (Regex.cls domainClass))
        (Regex.cat (Regex.chr '.') (Regex.rep24 (Regex.cls isLower)))))

/-- The function `isEmailValid` of `main.go`. -/
def isEmailValid (e : String) : Bool := emailRegex.matchString e

/-- The class `\s` of Go's `regexp`: tab, newline, form feed, carriage return, space. -/
def goSpace (c : Char) : Bool :=
  c == '\t' || c == '\n' || c == '\x0c' || c == '\r' || c == ' '

/-- The pattern `isNumberRegexp` of gorm between its anchors: `\s*\d+\s*`.  The ORM
tests an inline string condition against it to tell a primary key from SQL text. -/
def isNumberRegexp : Regex :=
  Regex.cat (Regex.star (Regex.cls goSpace))
    (Regex.cat (Regex.plus (Regex.cls isDigit)) (Regex.star (Regex.cls goSpace)))

/-! ## Part 2: data model, store and ORM operations -/

/-- Instants.  `0` stands for the zero `time.Time`. -/
abbrev Time := Nat

/-- The struct `Address`: the four fields of the embedded `gorm.Model`, then its own.
A nil `DeletedAt` is `none`. -/
structure Address where
  ID : Nat
  CreatedAt : Time
  UpdatedAt : Time
  DeletedAt : Option Time
  PersonID : Nat
  City : String
  State : String
  Mobile : String
  deriving DecidableEq, Repr

/-- The struct `Person`: the four fields of the embedded `gorm.Model`, then its own. -/
structure Person where
  ID : Nat
  CreatedAt : Time
  UpdatedAt : Time
  DeletedAt : Option Time
  Name : String
  Skills : String
  Email : String
  Addresses : List Address
  deriving DecidableEq, Repr

/-- A row of table `people`: the columns of `Person` (the relation `Addresses` is no column). -/
structure PersonRow where
  ID : Nat
  CreatedAt : Time
  UpdatedAt : Time
  DeletedAt : Option Time
  Name : String
  Skills : String
  Email : String
  deriving DecidableEq, Repr

/-- The zero value of `Address`, as `var address Address` declares it. -/
def Address.zero : Address :=
  { ID := 0, CreatedAt := 0, UpdatedAt := 0, DeletedAt := none,
    PersonID := 0, City := "", State := "", Mobile := "" }

/-- The zero value of `Person`, as `var Person Person` declares it. -/
def Person.zero : Person :=
  { ID := 0, CreatedAt := 0, UpdatedAt := 0, DeletedAt := none,
    Name := "", Skills := "", Email := "", Addresses := [] }

/-- Scanning a row into a zero `Person`: the columns are set, `Addresses` stays empty. -/
def PersonRow.toPerson (r : PersonRow) : Person :=
  { ID := r.ID, CreatedAt := r.CreatedAt, UpdatedAt := r.UpdatedAt, DeletedAt := r.DeletedAt,
    Name := r.Name, Skills := r.Skills, Email := r.Email, Addresses := [] }

/-- The columns of a `Person`. -/
def Person.toRow (p : Person) : PersonRow :=
  { ID := p.ID, CreatedAt := p.CreatedAt, UpdatedAt := p.UpdatedAt, DeletedAt := p.DeletedAt,
    Name := p.Name, Skills := p.Skills, Email := p.Email }

/-- A row is live when its soft-delete marker `deleted_at` is NULL. -/
def PersonRow.live (r : PersonRow) : Bool := r.DeletedAt.isNone

/-- A row is live when its soft-delete marker `deleted_at` is NULL. -/
def Address.live (a : Address) : Bool := a.DeletedAt.isNone

/-- The database: both tables with every physical row (soft-deleted ones included),
and the next value of each table's id sequence. -/
structure Store where
  people : List PersonRow
  peopleSeq : Nat
  addresses : List Address
  addressesSeq : Nat
  deriving DecidableEq, Repr

/-- What the embedding leaves to the database and the ORM:
* `rawPerson`, `rawAddress`: the truth of a piece of SQL text as a WHERE condition on
  a row (`none`: the statement fails);
* `saveAddresses now st owner as`: the ORM's auto-save of a non-empty `Addresses`
  relation of `owner` after its row was written: the store, the saved structs and
  the error, if any. -/
structure Backend where
  rawPerson : String → Option (PersonRow → Bool)
  rawAddress : String → Option (Address → Bool)
  saveAddresses : Time → Store → Person → List Address → Store × List Address × Option String

/-- White space skipped by the database's integer input. -/
def pgSpace (c : Char) : Bool := goSpace c || c == '\x0b'

/-- The value of a string of decimal digits. -/
def decimal (ds : List Char) : Nat :=
  ds.foldl (fun n c => 10 * n + (c.toNat - '0'.toNat)) 0

/-- The database's reading of a text parameter compared with an integer column:
white space, an optional sign, decimal digits, white space (`none`: the statement
fails with an input-syntax error). -/
def pgInt (s : String) : Option Int :=
  let t := s.data.dropWhile pgSpace
  let signed : Bool × List Char :=
    match t with
    | '-' :: r => (true, r)
    | '+' :: r => (false, r)
    | _ => (false, t)
  let ds := signed.2.takeWhile isDigit
  let rest := signed.2.dropWhile isDigit
  if ds ≠ [] ∧ rest.all pgSpace = true then
    some (if signed.1 then - (decimal ds : Int) else (decimal ds : Int))
  else none

/-- The condition an inline string argument of `First` stands for (`buildCondition`). -/
inductive Lookup (ρ : Type) where
  | all : Lookup ρ
  | byKey (k : Int) : Lookup ρ
  | raw (p : ρ → Bool) : Lookup ρ
  | failed : Lookup ρ

/-- How `First(&out, id)` reads its string argument: a string matching `isNumberRegexp`
is compared with the primary key as a bound parameter, an empty string adds no
condition, any other string is put into the WHERE clause as SQL text. -/
def inlineCondition {ρ : Type} (rawEval : String → Option (ρ → Bool)) (id : String) : Lookup ρ :=
  if isNumberRegexp.matchString id then
    match pgInt id with
    | some k => Lookup.byKey k
    | none => Lookup.failed
  else if id = "" then Lookup.all
  else
    match rawEval id with
    | some p => Lookup.raw p
    | none => Lookup.failed

/-- Does a row with primary key `key` satisfy the condition? -/
def Lookup.holds {ρ : Type} (c : Lookup ρ) (key : Nat) (r : ρ) : Bool :=
  match c with
  | Lookup.all => true
  | Lookup.byKey k => decide ((key : Int) = k)
  | Lookup.raw p => p r
  | Lookup.failed => false

/-- The number a path value denotes when the ORM takes it for a primary key. -/
def keyOf (id : String) : Option Nat :=
  if isNumberRegexp.matchString id then
    match pgInt id with
    | some (Int.ofNat n) => some n
    | _ => none
  else none

/-- The call `db.First(&Person, id)` on a zero `Person`:
`SELECT * FROM people WHERE deleted_at IS NULL AND <id> ORDER BY id LIMIT 1`.
Without a row, or when the statement fails, the struct stays zero. -/
def dbFirstPerson (db : Backend) (st : Store) (id : String) : Person :=
  let c := inlineCondition db.rawPerson id
  match (st.people.filter (fun r => r.live && c.holds r.ID r)).argmin (fun r => r.ID) with
  | some r => r.toPerson
  | none => Person.zero

/-- The call `db.First(&address, id)` on a zero `Address`. -/
def dbFirstAddress (db : Backend) (st : Store) (id : String) : Address :=
  let c := inlineCondition db.rawAddress id
  match (st.addresses.filter (fun a => a.live && c.holds a.ID a)).argmin (fun a => a.ID) with
  | some a => a
  | none => Address.zero

/-- The call `db.Model(&Person).Related(&addresses)`: the relation is found through the
field `PersonID` of `Address`:
`SELECT * FROM addresses WHERE deleted_at IS NULL AND person_id = <Person.ID>`. -/
def dbRelated (st : Store) (p : Person) : List Address :=
  st.addresses.filter (fun a => a.live && a.PersonID == p.ID)

/-- The call `db.Where("person_id = ?", id).Delete(Address{})`.  `Address` has a
`DeletedAt` field, so the ORM issues
`UPDATE addresses SET deleted_at = now WHERE deleted_at IS NULL AND person_id = $1`;
the struct's primary key is zero and adds no condition.  A failing statement
changes nothing and its error is dropped. -/
def dbDeleteAddressesOf (now : Time) (st : Store) (id : String) : Store :=
  match pgInt id with
  | some k =>
    { st with addresses := st.addresses.map (fun a =>
        if a.live && decide ((a.PersonID : Int) = k) then { a with DeletedAt := some now } else a) }
  | none => st

/-- The call `db.Delete(&Person)`:
`UPDATE people SET deleted_at = now WHERE deleted_at IS NULL [AND id = <Person.ID>]`.
The ORM adds the condition on `id` only when the struct's primary key is not zero. -/
def dbDeletePerson (now : Time) (st : Store) (p : Person) : Store :=
  { st with people := st.people.map (fun r =>
      if r.live && (p.ID == 0 || r.ID == p.ID) then { r with DeletedAt := some now } else r) }

/-- The call `db.Delete(&address)`:
`UPDATE addresses SET deleted_at = now WHERE deleted_at IS NULL [AND id = <address.ID>]`.
The ORM adds the condition on `id` only when the struct's primary key is not zero. -/
def dbDeleteAddress (now : Time) (st : Store) (a : Address) : Store :=
  { st with addresses := st.addresses.map (fun r =>
      if r.live && (a.ID == 0 || r.ID == a.ID) then { r with DeletedAt := some now } else r) }

/-- The error of an INSERT whose `id` is taken. -/
def pkeyViolation : String :=
  "pq: duplicate key value violates unique constraint \"people_pkey\""

/-- The error of a statement that would store an `email` twice. -/
def emailViolation : String :=
  "pq: duplicate key value violates unique constraint \"uix_people_email\""

/-- The call `db.Create(&Person)`.  Blank `CreatedAt` and `UpdatedAt` become `now`; a
zero `ID` is left to the sequence, a non-zero one is inserted as given; the primary
key and the unique index on `email` (tag `unique_index`) range over every physical
row.  A non-empty `Addresses` is then auto-saved.  On an error the transaction is
rolled back; sequences keep their advance.  Returns the store, the struct and the
error. -/
def dbCreatePerson (db : Backend) (now : Time) (st : Store) (p : Person) :
    Store × Person × Option String :=
  let p1 : Person :=
    { p with CreatedAt := if p.CreatedAt = 0 then now else p.CreatedAt,
             UpdatedAt := if p.UpdatedAt = 0 then now else p.UpdatedAt }
  let newId := if p.ID = 0 then st.peopleSeq else p.ID
  let st1 : Store := { st with peopleSeq := if p.ID = 0 then st.peopleSeq + 1 else st.peopleSeq }
  if st.people.any (fun r => r.ID == newId) then (st1, p1, some pkeyViolation)
  else if st.people.any (fun r => r.Email == p.Email) then (st1, p1, some emailViolation)
  else
    let p2 : Person := { p1 with ID := newId }
    let st2 : Store := { st1 with people := st1.people ++ [p2.toRow] }
    if p2.Addresses = [] then (st2, p2, none)
    else
      match db.saveAddresses now st2 p2 p2.Addresses with
      | (st3, saved, none) => (st3, { p2 with Addresses := saved }, none)
      | (st3, saved, some e) =>
        ({ st1 with addressesSeq := st3.addressesSeq }, { p2 with Addresses := saved }, some e)

/-- The call `db.Model(&person).Updates(reqPerson)` with a struct: every non-blank
field of `values` is assigned to the model; the non-blank columns and `updated_at`
are written by `UPDATE people SET ... WHERE deleted_at IS NULL [AND id = <model.ID>]`
(the model's key after the assignment).  With no non-blank column nothing is
issued.  A non-empty `Addresses` is then auto-saved.  On an error the transaction
is rolled back.  Returns the store, the model and the error. -/
def dbUpdatesPerson (db : Backend) (now : Time) (st : Store) (model values : Person) :
    Store × Person × Option String :=
  let m1 : Person :=
    { ID := if values.ID = 0 then model.ID else values.ID,
      CreatedAt := if values.CreatedAt = 0 then model.CreatedAt else values.CreatedAt,
      UpdatedAt := if values.UpdatedAt = 0 then model.UpdatedAt else values.UpdatedAt,
      DeletedAt := if values.DeletedAt = none then model.DeletedAt else values.DeletedAt,
      Name := if values.Name = "" then model.Name else values.Name,
      Skills := if values.Skills = "" then model.Skills else values.Skills,
      Email := if values.Email = "" then model.Email else values.Email,
      Addresses := if values.Addresses = [] then model.Addresses else values.Addresses }
  let hasUpdate : Bool :=
    values.ID != 0 || values.CreatedAt != 0 || values.UpdatedAt != 0 ||
      values.DeletedAt.isSome || values.Name != "" || values.Skills != "" || values.Email != ""
  if !hasUpdate then (st, m1, none)
  else
    let m2 : Person := { m1 with UpdatedAt := now }
    let hit (r : PersonRow) : Bool := r.live && (m2.ID == 0 || r.ID == m2.ID)
    let set (r : PersonRow) : PersonRow :=
      { ID := if values.ID = 0 then r.ID else values.ID,
        CreatedAt := if values.CreatedAt = 0 then r.CreatedAt else values.CreatedAt,
        UpdatedAt := now,
        DeletedAt := if values.DeletedAt = none then r.DeletedAt else values.DeletedAt,
        Name := if values.Name = "" then r.Name else values.Name,
        Skills := if values.Skills = "" then r.Skills else values.Skills,
        Email := if values.Email = "" then r.Email else values.Email }
    let people1 := st.people.map (fun r => if hit r then set r else r)
    let clash : Bool :=
      values.Email != "" && st.people.any hit &&
        decide (2 ≤ (people1.filter (fun r => r.Email == values.Email)).length)
    if clash then (st, m2, some emailViolation)
    else
      let st1 : Store := { st with people := people1 }
      if m2.Addresses = [] then (st1, m2, none)
      else
        match db.saveAddresses now st1 m2 m2.Addresses with
        | (st2, saved, none) => (st2, { m2 with Addresses := saved }, none)
        | (st2, saved, some e) =>
          ({ st with addressesSeq := st2.addressesSeq }, { m2 with Addresses := saved }, some e)

/-! ## Part 3: the response writer and the handlers -/

/-- The Go values the handlers serialise as JSON. -/
inductive Payload where
  | idMap (id : String) : Payload
  | person (p : Person) : Payload
  | address (a : Address) : Payload
  | result (value : Person) (rowsAffected : Nat) : Payload
  deriving DecidableEq, Repr

/-- One write to the response body.
* `errorLine msg`: what `http.Error` prints, the message and a newline;
* `marshal v`: the bytes of `json.Marshal(v)`;
* `encode v`: what `json.NewEncoder(w).Encode(v)` writes, the JSON text of `v` and a newline. -/
inductive Chunk where
  | errorLine (msg : String) : Chunk
  | marshal (v : Payload) : Chunk
  | encode (v : Payload) : Chunk
  deriving DecidableEq, Repr

/-- The state of an `http.ResponseWriter`: the status once the header is written, and
the body as the writes made so far. -/
structure ResponseWriter where
  status : Option Nat
  body : List Chunk
  deriving DecidableEq, Repr

/-- A writer nothing was written to. -/
def ResponseWriter.fresh : ResponseWriter := { status := none, body := [] }

/-- The method `WriteHeader`: sets the status; a second call is ignored. -/
def ResponseWriter.writeHeader (w : ResponseWriter) (code : Nat) : ResponseWriter :=
  match w.status with
  | some _ => w
  | none => { w with status := some code }

/-- The method `Write`: writes the header with status 200 if none was written, then
appends to the body. -/
def ResponseWriter.write (w : ResponseWriter) (c : Chunk) : ResponseWriter :=
  { status := some (w.status.getD 200), body := w.body ++ [c] }

/-- The function `http.Error`: writes the header with `code`, then the message line. -/
def httpError (w : ResponseWriter) (msg : String) (code : Nat) : ResponseWriter :=
  (w.writeHeader code).write (Chunk.errorLine msg)

/-- The handler `getPerson`; `id` is the path variable. -/
def getPerson (db : Backend) (st : Store) (id : String) : ResponseWriter :=
  let w := ResponseWriter.fresh
  let person := dbFirstPerson db st id
  if person.ID = 0 then httpError w "no persons found for id" 404
  else
    let addresses := dbRelated st person
    let person := { person with Addresses := addresses }
    w.write (Chunk.encode (Payload.person person))

/-- The handler `createPerson`.  `req` is the variable `Person` after
`json.NewDecoder(r.Body).Decode(&Person)`, whose error is dropped: the zero struct
for a body that is not JSON, a zero field for a member that is absent. -/
def createPerson (db : Backend) (now : Time) (st : Store) (req : Person) :
    Store × ResponseWriter :=
  let w := ResponseWriter.fresh
  if !isEmailValid req.Email then (st, httpError w "invalid email" 400)
  else
    match dbCreatePerson db now st req with
    | (st1, _, some e) => (st1, httpError w e 500)
    | (st1, created, none) => (st1, w.write (Chunk.encode (Payload.result created 1)))

/-- The handler `deletePerson`; `tA` and `tP` are the clock readings of its two
statements.  The struct `Person` it deletes is the zero value: the `First` that
would load it is commented out. -/
def deletePerson (tA tP : Time) (st : Store) (id : String) : Store × ResponseWriter :=
  let w := ResponseWriter.fresh
  let person := Person.zero
  let st1 := dbDeleteAddressesOf tA st id
  let st2 := dbDeletePerson tP st1 person
  (st2, (w.writeHeader 200).write (Chunk.marshal (Payload.idMap id)))

/-- The handler `updatePerson`; `req` is the variable `reqPerson` after decoding. -/
def updatePerson (db : Backend) (now : Time) (st : Store) (id : String) (req : Person) :
    Store × ResponseWriter :=
  let w := ResponseWriter.fresh
  let person := dbFirstPerson db st id
  if person.ID = 0 then (st, httpError w "no persons found for id" 404)
  else if !isEmailValid req.Email then (st, httpError w "invalid email" 400)
  else
    match dbUpdatesPerson db now st person req with
    | (st1, _, some e) => (st1, httpError w e 500)
    | (st1, updated, none) => (st1, w.write (Chunk.encode (Payload.person updated)))

/-- The handler `deleteAddress`. -/
def deleteAddress (db : Backend) (now : Time) (st : Store) (id : String) :
    Store × ResponseWriter :=
  let w := ResponseWriter.fresh
  let address := dbFirstAddress db st id
  let st1 := dbDeleteAddress now st address
  let w1 := (w.writeHeader 200).write (Chunk.marshal (Payload.idMap id))
  (st1, w1.write (Chunk.encode (Payload.address address)))

/-! ### The email format in the words of the specification -/

/-- A lowercase letter `a`-`z`. -/
def SpecLower (c : Char) : Prop := 'a' ≤ c ∧ c ≤ 'z'
/-- A digit `0`-`9`. -/
def SpecDigit (c : Char) : Prop := '0' ≤ c ∧ c ≤ '9'
/-- An uppercase letter `A`-`Z`. -/
def SpecUpper (c : Char) : Prop := 'A' ≤ c ∧ c ≤ 'Z'
/-- A character allowed in the local part: a-z, 0-9, `.`, `_`, `%`, `+`, `-`. -/
def SpecLocalChar (c : Char) : Prop :=
  SpecLower c ∨ SpecDigit c ∨ c = '.' ∨ c = '_' ∨ c = '%' ∨ c = '+' ∨ c = '-'
/-- A character allowed in the domain: a-z, 0-9, `.`, `-`. -/
def SpecDomainChar (c : Char) : Prop := SpecLower c ∨ SpecDigit c ∨ c = '.' ∨ c = '-'
/-- A top-level domain: two to four lowercase letters. -/
def SpecTld (T : List Char) : Prop := 2 ≤ T.length ∧ T.length ≤ 4 ∧ ∀ c ∈ T, SpecLower c
/-- The documented format: `L ++ "@" ++ D ++ "." ++ T` with a non-empty local part `L`,
a non-empty domain `D` and a top-level domain `T`. -/
def EmailShape (w : List Char) : Prop :=
  ∃ L D T, w = L ++ ['@'] ++ D ++ ['.'] ++ T ∧ L ≠ [] ∧ (∀ c ∈ L, SpecLocalChar c) ∧
    D ≠ [] ∧ (∀ c ∈ D, SpecDomainChar c) ∧ SpecTld T

/-! ### Sample data -/

/-- A backend in which every piece of SQL text fails and auto-save stores nothing. -/
def sampleBackend : Backend :=
  { rawPerson := fun _ => none, rawAddress := fun _ => none,
    saveAddresses := fun _ st _ saved => (st, saved, none) }

/-- A stored person with id 1. -/
def alice : PersonRow :=
  { ID := 1, CreatedAt := 10, UpdatedAt := 10, DeletedAt := none,
    Name := "Alice", Skills := "Go", Email := "alice@x.io" }

/-- A stored person with id 2. -/
def carol : PersonRow :=
  { ID := 2, CreatedAt := 11, UpdatedAt := 11, DeletedAt := none,
    Name := "Carol", Skills := "SQL", Email := "carol@x.io" }

/-- A person with id 1 that was soft-deleted at time 20. -/
def bobDeleted : PersonRow :=
  { ID := 1, CreatedAt := 10, UpdatedAt := 10, DeletedAt := some 20,
    Name := "Bob", Skills := "C", Email := "bob@x.io" }

/-- An address with id 1 owned by person 1. -/
def home : Address :=
  { ID := 1, CreatedAt := 12, UpdatedAt := 12, DeletedAt := none,
    PersonID := 1, City := "Pune", State := "MH", Mobile := "100" }

/-- An address with id 2 owned by person 2. -/
def office : Address :=
  { ID := 2, CreatedAt := 13, UpdatedAt := 13, DeletedAt := none,
    PersonID := 2, City := "Delhi", State := "DL", Mobile := "200" }

/-- A database just migrated: no row, both sequences at 1. -/
def emptyStore : Store :=
  { people := [], peopleSeq := 1, addresses := [], addressesSeq := 1 }

/-- Two live persons, each with one live address. -/
def sampleStore : Store :=
  { people := [alice, carol], peopleSeq := 3, addresses := [home, office], addressesSeq := 3 }

/-- One person, soft-deleted. -/
def deletedStore : Store :=
  { people := [bobDeleted], peopleSeq := 2, addresses := [], addressesSeq := 1 }

/-- A backend that knows one piece of SQL text: the condition `true`, which holds of
every row.  Any other text fails. -/
def sqlBackend : Backend :=
  { rawPerson := fun s => if s = "true" then some (fun _ => true) else none,
    rawAddress := fun s => if s = "true" then some (fun _ => true) else none,
    saveAddresses := fun _ st _ saved => (st, saved, none) }

/-! ## Part 4: the properties -/

/-! ### Correctness of the matcher -/

namespace Regex

theorem nullable_iff (r : Regex) : nullable r = true ↔ Accepts r [] := by
  induction r with
  | nothing => simp only [nullable]; constructor
               · intro h; cases h
               · intro h; cases h
  | eps => simp only [nullable]; exact ⟨fun _ => Accepts.eps, fun _ => trivial⟩
  | cls p => simp only [nullable]; constructor
             · intro h; cases h
             · intro h; cases h
  | cat r s ihr ihs =>
    simp only [nullable, Bool.and_eq_true, ihr, ihs]
    constructor
    · rintro ⟨h1, h2⟩
      exact Accepts.cat r s [] [] h1 h2
    · intro h
      generalize hw : ([] : List Char) = w at h
      cases h with
      | cat _ _ u v hu hv =>
        have huv := List.append_eq_nil.mp hw.symm
        obtain ⟨rfl, rfl⟩ := huv
        exact ⟨hu, hv⟩
  | alt r s ihr ihs =>
    simp only [nullable, Bool.or_eq_true, ihr, ihs]
    constructor
    · rintro (h | h)
      · exact Accepts.altL r s [] h
      · exact Accepts.altR r s [] h
    · intro h
      cases h with
      | altL _ _ _ hu => exact Or.inl hu
      | altR _ _ _ hu => exact Or.inr hu
  | star r _ => simp only [nullable]; exact ⟨fun _ => Accepts.starNil r, fun _ => trivial⟩

theorem accepts_nothing_iff (w : List Char) : Accepts nothing w ↔ False :=
  ⟨fun h => (by cases h), False.elim⟩

theorem accepts_eps_iff (w : List Char) : Accepts eps w ↔ w = [] := by
  constructor
  · intro h; cases h; rfl
  · rintro rfl; exact Accepts.eps

theorem accepts_cls_iff (p : Char → Bool) (w : List Char) :
    Accepts (cls p) w ↔ ∃ c, w = [c] ∧ p c = true := by
  constructor
  · intro h; cases h with
    | cls _ c hc => exact ⟨c, rfl, hc⟩
  · rintro ⟨c, rfl, hc⟩; exact Accepts.cls p c hc

theorem accepts_cat_iff (r s : Regex) (w : List Char) :
    Accepts (cat r s) w ↔ ∃ u v, w = u ++ v ∧ Accepts r u ∧ Accepts s v := by
  constructor
  · intro h; cases h with
    | cat _ _ u v hu hv => exact ⟨u, v, rfl, hu, hv⟩
  · rintro ⟨u, v, rfl, hu, hv⟩; exact Accepts.cat r s u v hu hv

theorem accepts_alt_iff (r s : Regex) (w : List Char) :
    Accepts (alt r s) w ↔ Accepts r w ∨ Accepts s w := by
  constructor
  · intro h; cases h with
    | altL _ _ _ hu => exact Or.inl hu
    | altR _ _ _ hu => exact Or.inr hu
  · rintro (h | h)
    · exact Accepts.altL r s w h
    · exact Accepts.altR r s w h

/-- A non-empty word of `r*` starts with a non-empty word of `r`. -/
theorem accepts_star_cons (r : Regex) (c : Char) (w : List Char) :
    Accepts (star r) (c :: w) ↔
      ∃ u v, w = u ++ v ∧ Accepts r (c :: u) ∧ Accepts (star r) v := by
  constructor
  · intro h
    generalize hx : c :: w = x at h
    generalize hq : star r = q at h
    induction h with
    | eps => cases hq
    | cls => cases hq
    | cat => cases hq
    | altL => cases hq
    | altR => cases hq
    | starNil => cases hx
    | starCons r0 u v hu hv _ ihv =>
      cases hq
      cases u with
      | nil => exact ihv (by simpa using hx) rfl
      | cons d u =>
        simp only [List.cons_append, List.cons.injEq] at hx
        obtain ⟨rfl, rfl⟩ := hx
        exact ⟨u, v, rfl, hu, hv⟩
  · rintro ⟨u, v, rfl, hu, hv⟩
    exact Accepts.starCons r (c :: u) v hu hv

theorem deriv_iff (r : Regex) : ∀ (c : Char) (w : List Char),
    Accepts (deriv r c) w ↔ Accepts r (c :: w) := by
  induction r with
  | nothing => intro c w; simp [deriv, accepts_nothing_iff]
  | eps => intro c w; simp [deriv, accepts_nothing_iff, accepts_eps_iff]
  | cls p =>
    intro c w
    by_cases h : p c = true
    · simp only [deriv, h, if_true, accepts_eps_iff, accepts_cls_iff]
      constructor
      · rintro rfl; exact ⟨c, rfl, h⟩
      · rintro ⟨d, hd, _⟩
        simp only [List.cons.injEq] at hd
        exact hd.2
    · simp only [deriv, h, accepts_nothing_iff, accepts_cls_iff, false_iff]
      simp only [Bool.false_eq_true, if_false, accepts_nothing_iff, false_iff]
      rintro ⟨d, hd, hp⟩
      simp only [List.cons.injEq] at hd
      obtain ⟨rfl, _⟩ := hd
      exact h hp
  | cat r s ihr ihs =>
    intro c w
    have key : Accepts (cat r s) (c :: w) ↔
        (∃ u v, w = u ++ v ∧ Accepts r (c :: u) ∧ Accepts s v) ∨
          (Accepts r [] ∧ Accepts s (c :: w)) := by
      rw [accepts_cat_iff]
      constructor
      · rintro ⟨u, v, huv, hu, hv⟩
        cases u with
        | nil => right; simp only [List.nil_append] at huv; subst huv; exact ⟨hu, hv⟩
        | cons d u =>
          simp only [List.cons_append, List.cons.injEq] at huv
          obtain ⟨rfl, rfl⟩ := huv
          exact Or.inl ⟨u, v, rfl, hu, hv⟩
      · rintro (⟨u, v, rfl, hu, hv⟩ | ⟨hu, hv⟩)
        · exact ⟨c :: u, v, rfl, hu, hv⟩
        · exact ⟨[], c :: w, rfl, hu, hv⟩
    rw [key]
    by_cases hn : nullable r = true
    · simp only [deriv, hn, if_true, accepts_alt_iff, accepts_cat_iff, ihr, ihs]
      have h0 := (nullable_iff r).mp hn
      simp only [h0, true_and]
    · have h0 : ¬ Accepts r [] := fun h => hn ((nullable_iff r).mpr h)
      have hd : deriv (cat r s) c = cat (deriv r c) s := by simp [deriv, hn]
      rw [hd, accepts_cat_iff]
      simp only [ihr, h0, false_and, or_false]
  | alt r s ihr ihs =>
    intro c w
    simp only [deriv, accepts_alt_iff, ihr, ihs]
  | star r ih =>
    intro c w
    simp only [deriv, accepts_cat_iff, ih, accepts_star_cons]

/-- The matcher decides membership in the language. -/
theorem matchList_iff (w : List Char) : ∀ r : Regex, matchList r w = true ↔ Accepts r w := by
  induction w with
  | nil => intro r; simpa [matchList] using nullable_iff r
  | cons c w ih => intro r; simp only [matchList, ih, deriv_iff]

end Regex

/-! ### The email check -/

namespace Regex

theorem accepts_star_cls (p : Char → Bool) (w : List Char) :
    Accepts (star (cls p)) w ↔ ∀ c ∈ w, p c = true := by
  induction w with
  | nil => simp only [List.not_mem_nil, false_implies, implies_true, iff_true]; exact Accepts.starNil _
  | cons c w ih =>
    rw [accepts_star_cons]
    constructor
    · rintro ⟨u, v, rfl, hu, hv⟩
      rw [accepts_cls_iff] at hu
      obtain ⟨d, hd, hp⟩ := hu
      simp only [List.cons.injEq] at hd
      obtain ⟨rfl, rfl⟩ := hd
      intro x hx
      rcases List.mem_cons.mp hx with rfl | hx
      · exact hp
      · exact ih.mp hv x (by simpa using hx)
    · intro h
      refine ⟨[], w, rfl, ?_, ?_⟩
      · exact Accepts.cls p c (h c (List.mem_cons_self _ _))
      · exact ih.mpr (fun x hx => h x (List.mem_cons_of_mem _ hx))

theorem accepts_plus_cls (p : Char → Bool) (w : List Char) :
    Accepts (plus (cls p)) w ↔ w ≠ [] ∧ ∀ c ∈ w, p c = true := by
  unfold plus
  rw [accepts_cat_iff]
  constructor
  · rintro ⟨u, v, rfl, hu, hv⟩
    rw [accepts_cls_iff] at hu
    obtain ⟨d, rfl, hp⟩ := hu
    rw [accepts_star_cls] at hv
    refine ⟨by simp, ?_⟩
    intro x hx
    rcases List.mem_cons.mp hx with rfl | hx
    · exact hp
    · exact hv x hx
  · rintro ⟨hne, h⟩
    cases w with
    | nil => exact absurd rfl hne
    | cons c w =>
      refine ⟨[c], w, rfl, Accepts.cls p c (h c (List.mem_cons_self _ _)), ?_⟩
      exact (accepts_star_cls p w).mpr (fun x hx => h x (List.mem_cons_of_mem _ hx))

theorem accepts_chr (c : Char) (w : List Char) : Accepts (chr c) w ↔ w = [c] := by
  unfold chr
  rw [accepts_cls_iff]
  constructor
  · rintro ⟨d, rfl, hd⟩
    simp only [beq_iff_eq] at hd
    rw [hd]
  · rintro rfl
    exact ⟨c, rfl, by simp⟩

theorem accepts_opt (r : Regex) (w : List Char) : Accepts (opt r) w ↔ Accepts r w ∨ w = [] := by
  unfold opt
  rw [accepts_alt_iff, accepts_eps_iff]

theorem accepts_rep24_cls (p : Char → Bool) (w : List Char) :
    Accepts (rep24 (cls p)) w ↔ 2 ≤ w.length ∧ w.length ≤ 4 ∧ ∀ c ∈ w, p c = true := by
  unfold rep24
  simp only [accepts_cat_iff, accepts_opt, accepts_cls_iff]
  constructor
  · rintro ⟨u1, v1, rfl, ⟨c1, rfl, h1⟩, u2, v2, rfl, ⟨c2, rfl, h2⟩, h⟩
    rcases h with ⟨u3, v3, rfl, ⟨c3, rfl, h3⟩, h⟩ | rfl
    · rcases h with ⟨c4, rfl, h4⟩ | rfl
      · simp [h1, h2, h3, h4]
      · simp [h1, h2, h3]
    · simp [h1, h2]
  · rintro ⟨hlo, hhi, h⟩
    match w, hlo, hhi, h with
    | [c1, c2], _, _, h =>
      exact ⟨[c1], [c2], rfl, ⟨c1, rfl, h c1 (by simp)⟩, [c2], [], rfl,
        ⟨c2, rfl, h c2 (by simp)⟩, Or.inr rfl⟩
    | [c1, c2, c3], _, _, h =>
      exact ⟨[c1], [c2, c3], rfl, ⟨c1, rfl, h c1 (by simp)⟩, [c2], [c3], rfl,
        ⟨c2, rfl, h c2 (by simp)⟩,
        Or.inl ⟨[c3], [], rfl, ⟨c3, rfl, h c3 (by simp)⟩, Or.inr rfl⟩⟩
    | [c1, c2, c3, c4], _, _, h =>
      exact ⟨[c1], [c2, c3, c4], rfl, ⟨c1, rfl, h c1 (by simp)⟩, [c2], [c3, c4], rfl,
        ⟨c2, rfl, h c2 (by simp)⟩,
        Or.inl ⟨[c3], [c4], rfl, ⟨c3, rfl, h c3 (by simp)⟩,
          Or.inl ⟨c4, rfl, h c4 (by simp)⟩⟩⟩

end Regex

theorem isLower_iff (c : Char) : isLower c = true ↔ SpecLower c := by
  simp [isLower, SpecLower]

theorem isDigit_iff (c : Char) : isDigit c = true ↔ SpecDigit c := by
  simp [isDigit, SpecDigit]

theorem localClass_iff (c : Char) : localClass c = true ↔ SpecLocalChar c := by
  simp [localClass, SpecLocalChar, isLower_iff, isDigit_iff, or_assoc]

theorem domainClass_iff (c : Char) : domainClass c = true ↔ SpecDomainChar c := by
  simp [domainClass, SpecDomainChar, isLower_iff, isDigit_iff, or_assoc]

theorem accepts_emailRegex (w : List Char) : Regex.Accepts emailRegex w ↔ EmailShape w := by
  unfold emailRegex EmailShape SpecTld
  simp only [Regex.accepts_cat_iff, Regex.accepts_plus_cls, Regex.accepts_chr,
    Regex.accepts_rep24_cls, localClass_iff, domainClass_iff, isLower_iff]
  constructor
  · rintro ⟨L, v1, rfl, ⟨hL, hLc⟩, a, v2, rfl, rfl, D, v3, rfl, ⟨hD, hDc⟩, d, T, rfl, rfl, hT⟩
    exact ⟨L, D, T, by simp, hL, hLc, hD, hDc, hT⟩
  · rintro ⟨L, D, T, rfl, hL, hLc, hD, hDc, hT⟩
    exact ⟨L, ['@'] ++ D ++ ['.'] ++ T, by simp, ⟨hL, hLc⟩, ['@'], D ++ ['.'] ++ T, by simp, rfl,
      D, ['.'] ++ T, by simp, ⟨hD, hDc⟩, ['.'], T, rfl, rfl, hT⟩

theorem isEmailValid_iff (s : String) : isEmailValid s = true ↔ EmailShape s.data := by
  unfold isEmailValid Regex.matchString
  rw [Regex.matchList_iff, accepts_emailRegex]

theorem specUpper_not_lower (c : Char) (h : SpecUpper c) : ¬ SpecLower c := by
  unfold SpecUpper at h
  unfold SpecLower
  rintro ⟨h1, _⟩
  have a := h.2
  rw [Char.le_def] at a h1
  have a' : c.val.toNat ≤ 90 := a
  have b' : 97 ≤ c.val.toNat := h1
  omega

theorem specUpper_not_digit (c : Char) (h : SpecUpper c) : ¬ SpecDigit c := by
  unfold SpecUpper at h
  unfold SpecDigit
  rintro ⟨_, h2⟩
  have a := h.1
  rw [Char.le_def] at a h2
  have a' : 65 ≤ c.val.toNat := a
  have b' : c.val.toNat ≤ 57 := h2
  omega

theorem specUpper_not_local (c : Char) (h : SpecUpper c) : ¬ SpecLocalChar c := by
  rintro (h1 | h1 | rfl | rfl | rfl | rfl | rfl)
  · exact specUpper_not_lower c h h1
  · exact specUpper_not_digit c h h1
  all_goals exact absurd h (by unfold SpecUpper; decide)

theorem specUpper_not_domain (c : Char) (h : SpecUpper c) : ¬ SpecDomainChar c := by
  rintro (h1 | h1 | rfl | rfl)
  · exact specUpper_not_lower c h h1
  · exact specUpper_not_digit c h h1
  all_goals exact absurd h (by unfold SpecUpper; decide)

theorem emailShape_no_upper (w : List Char) (h : EmailShape w) : ∀ c ∈ w, ¬ SpecUpper c := by
  obtain ⟨L, D, T, rfl, _, hL, _, hD, _, _, hT⟩ := h
  intro c hc hu
  simp only [List.mem_append, List.mem_singleton] at hc
  rcases hc with (((hc | rfl) | hc) | rfl) | hc
  · exact specUpper_not_local c hu (hL c hc)
  · exact absurd hu (by unfold SpecUpper; decide)
  · exact specUpper_not_domain c hu (hD c hc)
  · exact absurd hu (by unfold SpecUpper; decide)
  · exact specUpper_not_lower c hu (hT c hc)

/-- C1: `isEmailValid s` is true exactly when the whole of `s` is
`L ++ "@" ++ D ++ "." ++ T` with `L` non-empty over a-z, 0-9, `.`, `_`, `%`, `+`, `-`,
`D` non-empty over a-z, 0-9, `.`, `-`, and `T` two to four lowercase letters; so a
string with no `@`, a string that does not end in `.` and two to four lowercase
letters, and a string with an uppercase letter are all rejected. -/
theorem isEmailValid_spec (s : String) :
    (isEmailValid s = true ↔ EmailShape s.data) ∧
    ('@' ∉ s.data → isEmailValid s = false) ∧
    ((¬ ∃ P T, s.data = P ++ ['.'] ++ T ∧ SpecTld T) → isEmailValid s = false) ∧
    ((∃ c ∈ s.data, SpecUpper c) → isEmailValid s = false) := by
  have key := isEmailValid_iff s
  refine ⟨key, ?_, ?_, ?_⟩
  · intro hat
    rw [← Bool.not_eq_true, key]
    rintro ⟨L, D, T, hw, _⟩
    exact hat (by rw [hw]; simp)
  · intro hend
    rw [← Bool.not_eq_true, key]
    rintro ⟨L, D, T, hw, _, _, _, _, hT⟩
    exact hend ⟨L ++ ['@'] ++ D, T, hw, hT⟩
  · rintro ⟨c, hc, hu⟩
    rw [← Bool.not_eq_true, key]
    intro hshape
    exact emailShape_no_upper _ hshape c hc hu

/-! ### Looking a row up by its key -/

theorem inlineCondition_of_keyOf {ρ : Type} (rawEval : String → Option (ρ → Bool))
    (id : String) (n : Nat) (h : keyOf id = some n) :
    inlineCondition rawEval id = Lookup.byKey (n : Int) := by
  unfold keyOf at h
  unfold inlineCondition
  split at h
  · rename_i hnum
    rw [if_pos hnum]
    split at h
    · rename_i m hm
      simp only [Option.some.injEq] at h
      subst h
      rw [hm]
      rfl
    · exact absurd h (by simp)
  · exact absurd h (by simp)

theorem pgInt_of_keyOf (id : String) (n : Nat) (h : keyOf id = some n) :
    pgInt id = some (n : Int) := by
  unfold keyOf at h
  split at h
  · split at h
    · rename_i m hm
      simp only [Option.some.injEq] at h
      subst h
      rw [hm]
      rfl
    · exact absurd h (by simp)
  · exact absurd h (by simp)

theorem dbFirstPerson_none (db : Backend) (st : Store) (id : String) (n : Nat)
    (hkey : keyOf id = some n) (hno : ¬ ∃ r ∈ st.people, r.live = true ∧ r.ID = n) :
    dbFirstPerson db st id = Person.zero := by
  unfold dbFirstPerson
  simp only [inlineCondition_of_keyOf db.rawPerson id n hkey, Lookup.holds]
  have hnil : st.people.filter (fun r => r.live && decide ((r.ID : Int) = (n : Int))) = [] := by
    rw [List.filter_eq_nil_iff]
    intro r hr hc
    simp only [Bool.and_eq_true, decide_eq_true_eq, Int.natCast_inj] at hc
    exact hno ⟨r, hr, hc.1, hc.2⟩
  rw [hnil]
  rfl

theorem dbFirstPerson_some (db : Backend) (st : Store) (id : String) (n : Nat)
    (hkey : keyOf id = some n) (hex : ∃ r ∈ st.people, r.live = true ∧ r.ID = n) :
    ∃ r ∈ st.people, r.live = true ∧ r.ID = n ∧ dbFirstPerson db st id = r.toPerson := by
  unfold dbFirstPerson
  simp only [inlineCondition_of_keyOf db.rawPerson id n hkey, Lookup.holds]
  obtain ⟨r0, hr0, hl0, hn0⟩ := hex
  have hmem0 : r0 ∈ st.people.filter (fun r => r.live && decide ((r.ID : Int) = (n : Int))) := by
    rw [List.mem_filter]
    exact ⟨hr0, by simp [hl0, hn0]⟩
  cases hm : (st.people.filter (fun r => r.live && decide ((r.ID : Int) = (n : Int)))).argmin
      (fun r => r.ID) with
  | none =>
    rw [List.argmin_eq_none] at hm
    rw [hm] at hmem0
    exact absurd hmem0 (List.not_mem_nil _)
  | some r =>
    have hr := List.argmin_mem hm
    rw [List.mem_filter] at hr
    simp only [Bool.and_eq_true, decide_eq_true_eq, Int.natCast_inj] at hr
    exact ⟨r, hr.1, hr.2.1, hr.2.2, rfl⟩

theorem dbFirstAddress_none (db : Backend) (st : Store) (id : String) (n : Nat)
    (hkey : keyOf id = some n) (hno : ¬ ∃ a ∈ st.addresses, a.live = true ∧ a.ID = n) :
    dbFirstAddress db st id = Address.zero := by
  unfold dbFirstAddress
  simp only [inlineCondition_of_keyOf db.rawAddress id n hkey, Lookup.holds]
  have hnil : st.addresses.filter (fun a => a.live && decide ((a.ID : Int) = (n : Int))) = [] := by
    rw [List.filter_eq_nil_iff]
    intro a ha hc
    simp only [Bool.and_eq_true, decide_eq_true_eq, Int.natCast_inj] at hc
    exact hno ⟨a, ha, hc.1, hc.2⟩
  rw [hnil]
  rfl

/-! ### The handlers -/

/-- C2: a create request whose decoded `Email` fails `isEmailValid` is answered with
status 400 and the store (both tables and both sequences) is left as it was; this
covers the zero struct of a body that is not JSON and every body with no `Email`. -/
theorem createPerson_invalid_email (db : Backend) (now : Time) (st : Store) (req : Person)
    (h : isEmailValid req.Email = false) :
    createPerson db now st req = (st, ⟨some 400, [Chunk.errorLine "invalid email"]⟩) ∧
    createPerson db now st Person.zero = (st, ⟨some 400, [Chunk.errorLine "invalid email"]⟩) ∧
    (∀ other : Person, other.Email = "" →
      createPerson db now st other = (st, ⟨some 400, [Chunk.errorLine "invalid email"]⟩)) := by
  have hempty : isEmailValid "" = false := by decide
  refine ⟨?_, ?_, ?_⟩
  · simp [createPerson, h, httpError, ResponseWriter.fresh, ResponseWriter.writeHeader,
      ResponseWriter.write]
  · simp [createPerson, Person.zero, hempty, httpError, ResponseWriter.fresh,
      ResponseWriter.writeHeader, ResponseWriter.write]
  · intro other ho
    simp [createPerson, ho, hempty, httpError, ResponseWriter.fresh,
      ResponseWriter.writeHeader, ResponseWriter.write]

theorem createPerson_invalid_email_witness :
    isEmailValid ({ Person.zero with Name := "Bob", Email := "Bob@x.io" } : Person).Email = false ∧
    createPerson sampleBackend 50 sampleStore { Person.zero with Name := "Bob", Email := "Bob@x.io" }
      = (sampleStore, ⟨some 400, [Chunk.errorLine "invalid email"]⟩) :=
  ⟨by decide,
   (createPerson_invalid_email sampleBackend 50 sampleStore
      { Person.zero with Name := "Bob", Email := "Bob@x.io" } (by decide)).1⟩

/-- C3 (amended): for a path value that is a decimal numeral, denoting the key `n`:
when no live person row has id `n`, `getPerson` answers 404 with the message
"no persons found for id"; when one has, it answers 200 (not 404) with that person
and its live addresses. -/
theorem getPerson_not_found_iff (db : Backend) (st : Store) (id : String) (n : Nat)
    (hkey : keyOf id = some n) (hwf : ∀ r ∈ st.people, r.ID ≠ 0) :
    ((¬ ∃ r ∈ st.people, r.live = true ∧ r.ID = n) →
      getPerson db st id = ⟨some 404, [Chunk.errorLine "no persons found for id"]⟩) ∧
    ((∃ r ∈ st.people, r.live = true ∧ r.ID = n) →
      ∃ r ∈ st.people, r.live = true ∧ r.ID = n ∧
        getPerson db st id = ⟨some 200, [Chunk.encode (Payload.person
          { r.toPerson with
            Addresses := (st.addresses.filter (fun a => a.live && a.PersonID == n)) })]⟩) := by
  constructor
  · intro hno
    simp [getPerson, dbFirstPerson_none db st id n hkey hno, Person.zero, httpError,
      ResponseWriter.fresh, ResponseWriter.writeHeader, ResponseWriter.write]
  · intro hex
    obtain ⟨r, hr, hl, hn, hfirst⟩ := dbFirstPerson_some db st id n hkey hex
    refine ⟨r, hr, hl, hn, ?_⟩
    have hne : n ≠ 0 := hn ▸ hwf r hr
    simp [getPerson, hfirst, PersonRow.toPerson, hne, dbRelated, hn, ResponseWriter.fresh,
      ResponseWriter.write]

theorem getPerson_not_found_iff_witness :
    getPerson sampleBackend sampleStore "3"
      = ⟨some 404, [Chunk.errorLine "no persons found for id"]⟩ ∧
    ∃ r ∈ sampleStore.people, r.live = true ∧ r.ID = 2 ∧
      getPerson sampleBackend sampleStore "2" = ⟨some 200, [Chunk.encode (Payload.person
        { r.toPerson with
          Addresses := (sampleStore.addresses.filter (fun a => a.live && a.PersonID == 2)) })]⟩ :=
  ⟨(getPerson_not_found_iff sampleBackend sampleStore "3" 3 (by decide) (by decide)).1
      (by decide),
   (getPerson_not_found_iff sampleBackend sampleStore "2" 2 (by decide) (by decide)).2
      (by decide)⟩

/-- C4: `deletePerson` always answers 200 with the body `{"ID": id}`, whether or not
a person with that id exists, and afterwards no live address row has a `person_id`
equal to the id and no live person row has an `id` equal to it. -/
theorem deletePerson_response_and_effect (tA tP : Time) (st : Store) (id : String) :
    (deletePerson tA tP st id).2 = ⟨some 200, [Chunk.marshal (Payload.idMap id)]⟩ ∧
    (∀ a ∈ (deletePerson tA tP st id).1.addresses,
      pgInt id = some (a.PersonID : Int) → a.live = false) ∧
    (∀ r ∈ (deletePerson tA tP st id).1.people,
      pgInt id = some (r.ID : Int) → r.live = false) := by
  refine ⟨rfl, ?_, ?_⟩
  · intro a ha hid
    simp only [deletePerson, dbDeletePerson, dbDeleteAddressesOf, hid, List.mem_map] at ha
    obtain ⟨b, _, hb⟩ := ha
    by_cases hc : (b.live && decide ((b.PersonID : Int) = (a.PersonID : Int))) = true
    · rw [if_pos hc] at hb
      rw [← hb]
      rfl
    · rw [if_neg hc] at hb
      subst hb
      simpa using hc
  · intro r hr _
    simp only [deletePerson, dbDeletePerson, List.mem_map] at hr
    obtain ⟨b, _, hb⟩ := hr
    by_cases hc : (b.live && (Person.zero.ID == 0 || b.ID == Person.zero.ID)) = true
    · rw [if_pos hc] at hb
      rw [← hb]
      rfl
    · rw [if_neg hc] at hb
      subst hb
      simpa [Person.zero] using hc

/-- C7 (amended): for a path value that is a decimal numeral, denoting the key `n`,
`updatePerson` answers 404 with the message "no persons found for id" when no live
person row has id `n`, whatever the body holds; when one has and the decoded
`Email` fails `isEmailValid`, it answers 400 with the message "invalid email"; in
both cases the store is left as it was. -/
theorem updatePerson_error_order (db : Backend) (now : Time) (st : Store) (id : String)
    (n : Nat) (req : Person)
    (hkey : keyOf id = some n) (hwf : ∀ r ∈ st.people, r.ID ≠ 0) :
    ((¬ ∃ r ∈ st.people, r.live = true ∧ r.ID = n) →
      updatePerson db now st id req
        = (st, ⟨some 404, [Chunk.errorLine "no persons found for id"]⟩)) ∧
    ((∃ r ∈ st.people, r.live = true ∧ r.ID = n) → isEmailValid req.Email = false →
      updatePerson db now st id req = (st, ⟨some 400, [Chunk.errorLine "invalid email"]⟩)) := by
  constructor
  · intro hno
    simp [updatePerson, dbFirstPerson_none db st id n hkey hno, Person.zero, httpError,
      ResponseWriter.fresh, ResponseWriter.writeHeader, ResponseWriter.write]
  · intro hex hbad
    obtain ⟨r, hr, _, hn, hfirst⟩ := dbFirstPerson_some db st id n hkey hex
    have hne : n ≠ 0 := hn ▸ hwf r hr
    simp [updatePerson, hfirst, PersonRow.toPerson, hn, hne, hbad, httpError,
      ResponseWriter.fresh, ResponseWriter.writeHeader, ResponseWriter.write]

theorem updatePerson_error_order_witness :
    updatePerson sampleBackend 50 sampleStore "7" { Person.zero with Email := "not an email" }
        = (sampleStore, ⟨some 404, [Chunk.errorLine "no persons found for id"]⟩) ∧
    updatePerson sampleBackend 50 sampleStore "2" { Person.zero with Email := "not an email" }
        = (sampleStore, ⟨some 400, [Chunk.errorLine "invalid email"]⟩) :=
  ⟨(updatePerson_error_order sampleBackend 50 sampleStore "7" 7
      { Person.zero with Email := "not an email" } (by decide) (by decide)).1 (by decide),
   (updatePerson_error_order sampleBackend 50 sampleStore "2" 2
      { Person.zero with Email := "not an email" } (by decide) (by decide)).2
      (by decide) (by decide)⟩

theorem isEmailValid_ne_empty (e : String) (h : isEmailValid e = true) : e ≠ "" := by
  rintro rfl
  exact absurd h (by decide)

theorem row_eq_of_key (st : Store) (hpk : (st.people.map (fun r => r.ID)).Nodup)
    (p r : PersonRow) (hp : p ∈ st.people) (hr : r ∈ st.people) (h : r.ID = p.ID) : r = p :=
  List.inj_on_of_nodup_map hpk hr hp h

theorem dbFirstPerson_of_key (db : Backend) (st : Store) (id : String) (p : PersonRow)
    (hkey : keyOf id = some p.ID) (hpk : (st.people.map (fun r => r.ID)).Nodup)
    (hp : p ∈ st.people) (hlive : p.live = true) :
    dbFirstPerson db st id = p.toPerson := by
  obtain ⟨r, hr, _, hn, hfirst⟩ := dbFirstPerson_some db st id p.ID hkey ⟨p, hp, hlive, rfl⟩
  rw [hfirst, row_eq_of_key st hpk p r hp hr hn]

theorem length_filter_le_one (st : Store) (hpk : (st.people.map (fun r => r.ID)).Nodup)
    (p : PersonRow) (q : PersonRow → Bool) (hq : ∀ r ∈ st.people, q r = true → r = p) :
    (st.people.filter q).length ≤ 1 := by
  have hnd : (st.people.filter q).Nodup := (List.Nodup.of_map _ hpk).filter _
  have hall : ∀ r ∈ st.people.filter q, r = p := by
    intro r hr
    rw [List.mem_filter] at hr
    exact hq r hr.1 hr.2
  generalize st.people.filter q = l at hnd hall
  match l, hnd, hall with
  | [], _, _ => simp
  | [_], _, _ => simp
  | a :: b :: _, hnd, hall =>
    have ha := hall a (by simp)
    have hb := hall b (by simp)
    rw [List.nodup_cons] at hnd
    exact absurd (by rw [ha, hb]; simp) hnd.1
/-- C5 (amended): an update body with a non-empty `Name`, an `Email` that passes
`isEmailValid` and is stored in no other row, and nothing else, sent for a live
person `p`, is answered 200 with the updated person; the stored row then has the
new `Name` and `Email`, a fresh `UpdatedAt`, and its `Skills` as before.  A body with
no `Email`, such as `{"Name":"Bob"}`, is answered 400 and changes nothing. -/
theorem updatePerson_name_and_email (db : Backend) (now : Time) (st : Store) (id : String)
    (p : PersonRow) (req : Person)
    (hkey : keyOf id = some p.ID)
    (hpk : (st.people.map (fun r => r.ID)).Nodup)
    (hp : p ∈ st.people) (hlive : p.live = true) (hid : p.ID ≠ 0)
    (hname : req.Name ≠ "") (hemail : isEmailValid req.Email = true)
    (hfree : ∀ r ∈ st.people, r.Email = req.Email → r = p)
    (hrest : req.ID = 0 ∧ req.CreatedAt = 0 ∧ req.UpdatedAt = 0 ∧ req.DeletedAt = none ∧
      req.Skills = "" ∧ req.Addresses = []) :
    updatePerson db now st id req =
      ({ st with people := st.people.map (fun r =>
          if r = p then { p with Name := req.Name, Email := req.Email, UpdatedAt := now } else r) },
       ⟨some 200, [Chunk.encode (Payload.person
          { p.toPerson with Name := req.Name, Email := req.Email, UpdatedAt := now })]⟩) ∧
    (∀ other : Person, other.Email = "" →
      updatePerson db now st id other = (st, ⟨some 400, [Chunk.errorLine "invalid email"]⟩)) := by
  obtain ⟨h1, h2, h3, h4, h5, h6⟩ := hrest
  have hne := isEmailValid_ne_empty req.Email hemail
  have hfirst := dbFirstPerson_of_key db st id p hkey hpk hp hlive
  have hempty : isEmailValid "" = false := by decide
  refine ⟨?_, fun other ho => by
    simp [updatePerson, hfirst, PersonRow.toPerson, hid, ho, hempty, httpError,
      ResponseWriter.fresh, ResponseWriter.writeHeader, ResponseWriter.write]⟩
  have hhit : ∀ r ∈ st.people, (r.live && (p.ID == 0 || r.ID == p.ID)) = decide (r = p) := by
    intro r hr
    by_cases hrp : r = p
    · subst hrp; simp [hlive]
    · have : r.ID ≠ p.ID := fun h => hrp (row_eq_of_key st hpk p r hp hr h)
      simp [hrp, this, hid]
  have hmap : st.people.map (fun r =>
        if (r.live && (p.ID == 0 || r.ID == p.ID)) = true then
          ({ ID := r.ID, CreatedAt := r.CreatedAt, UpdatedAt := now, DeletedAt := r.DeletedAt,
             Name := req.Name, Skills := r.Skills, Email := req.Email } : PersonRow)
        else r)
      = st.people.map (fun r =>
        if r = p then { p with Name := req.Name, Email := req.Email, UpdatedAt := now } else r) := by
    apply List.map_congr_left
    intro r hr
    rw [hhit r hr]
    by_cases hrp : r = p
    · subst hrp; simp
    · simp [hrp]
  have hcount : (List.filter (fun r => r.Email == req.Email) (st.people.map (fun r =>
        if r = p then { p with Name := req.Name, Email := req.Email, UpdatedAt := now } else r))).length
      ≤ 1 := by
    rw [List.filter_map, List.length_map]
    apply length_filter_le_one st hpk p
    intro r hr hq
    by_cases hrp : r = p
    · exact hrp
    · simp only [Function.comp, hrp, if_false, beq_iff_eq] at hq
      exact hfree r hr hq
  have hclash : ¬ (2 ≤ (List.filter (fun r => r.Email == req.Email) (st.people.map (fun r =>
        if r = p then { p with Name := req.Name, Email := req.Email, UpdatedAt := now } else r))).length) := by
    omega
  simp only [updatePerson, hfirst, PersonRow.toPerson, hid, if_false, hemail, Bool.not_true,
    Bool.false_eq_true, dbUpdatesPerson, h1, h2, h3, h4, h5, h6, hname, hne, if_true, hmap]
  simp [hname, hne, hclash, ResponseWriter.fresh, ResponseWriter.write]
theorem updatePerson_name_and_email_witness :
    isEmailValid "alice@x.io" = true ∧
    updatePerson sampleBackend 50 sampleStore "1"
        { Person.zero with Name := "Bob", Email := "alice@x.io" } =
      ({ sampleStore with people := sampleStore.people.map (fun r =>
          if r = alice then { alice with Name := "Bob", Email := "alice@x.io", UpdatedAt := 50 }
          else r) },
       ⟨some 200, [Chunk.encode (Payload.person
          { alice.toPerson with Name := "Bob", Email := "alice@x.io", UpdatedAt := 50 })]⟩) :=
  ⟨by decide,
   (updatePerson_name_and_email sampleBackend 50 sampleStore "1" alice
     { Person.zero with Name := "Bob", Email := "alice@x.io" }
     (by decide) (by decide) (by decide) (by decide) (by decide) (by decide) (by decide)
     (by decide) (by decide)).1⟩

/-- C5 as stated fails: the body `{"Name":"Bob"}` sent for the live person 1 decodes to
an empty `Email`, is answered 400 "invalid email", and the stored row keeps its
name "Alice". -/
theorem updatePerson_name_only_rejected :
    updatePerson sampleBackend 50 sampleStore "1" { Person.zero with Name := "Bob" }
        = (sampleStore, ⟨some 400, [Chunk.errorLine "invalid email"]⟩) ∧
    alice ∈ sampleStore.people ∧ alice.live = true ∧ alice.ID = 1 ∧
    ¬ ∃ r ∈ (updatePerson sampleBackend 50 sampleStore "1"
        { Person.zero with Name := "Bob" }).1.people, r.ID = 1 ∧ r.Name = "Bob" := by
  decide

/-- C6 (amended): when the next id of the sequence is taken by no stored row, a
create body with a `Name`, `Skills` and an `Email` that passes `isEmailValid` and
is stored in no row, live or soft-deleted (no `ID`, no `DeletedAt`, no
`Addresses`), is answered 200 with the created person, and `getPerson` on the id
of that person answers 200 with a person of the same `Name`, `Skills` and `Email`. -/
theorem createPerson_then_getPerson (db : Backend) (now : Time) (st : Store) (req : Person)
    (hemail : isEmailValid req.Email = true)
    (hfree : ∀ r ∈ st.people, r.Email ≠ req.Email)
    (hseq : st.peopleSeq ≠ 0) (hfresh : ∀ r ∈ st.people, r.ID ≠ st.peopleSeq)
    (hrest : req.ID = 0 ∧ req.DeletedAt = none ∧ req.Addresses = []) :
    ∃ st1 created,
      createPerson db now st req
        = (st1, ⟨some 200, [Chunk.encode (Payload.result created 1)]⟩) ∧
      ∀ id, keyOf id = some created.ID →
        ∃ got, getPerson db st1 id = ⟨some 200, [Chunk.encode (Payload.person got)]⟩ ∧
          got.ID = created.ID ∧ got.Name = req.Name ∧ got.Skills = req.Skills ∧
          got.Email = req.Email := by
  obtain ⟨h1, h2, h3⟩ := hrest
  have hpk : (st.people.any fun r => r.ID == st.peopleSeq) = false := by
    rw [List.any_eq_false]
    intro r hr
    simpa using hfresh r hr
  have hem : (st.people.any fun r => r.Email == req.Email) = false := by
    rw [List.any_eq_false]
    intro r hr
    simpa using hfree r hr
  refine ⟨{ st with peopleSeq := st.peopleSeq + 1, people := st.people ++ [({ req with
          CreatedAt := if req.CreatedAt = 0 then now else req.CreatedAt,
          UpdatedAt := if req.UpdatedAt = 0 then now else req.UpdatedAt,
          ID := st.peopleSeq } : Person).toRow] },
      { req with
          CreatedAt := if req.CreatedAt = 0 then now else req.CreatedAt,
          UpdatedAt := if req.UpdatedAt = 0 then now else req.UpdatedAt,
          ID := st.peopleSeq }, ?_, ?_⟩
  · simp only [createPerson, hemail, Bool.not_true, Bool.false_eq_true, if_false,
      dbCreatePerson, h1, if_true, hpk, hem, h3, ResponseWriter.fresh, ResponseWriter.write]
    rfl
  · intro id hkey
    have hex : ∃ r ∈ (st.people ++ [({ req with
          CreatedAt := if req.CreatedAt = 0 then now else req.CreatedAt,
          UpdatedAt := if req.UpdatedAt = 0 then now else req.UpdatedAt,
          ID := st.peopleSeq } : Person).toRow]), r.live = true ∧ r.ID = st.peopleSeq :=
      ⟨_, List.mem_append_right _ (List.mem_singleton_self _),
        by simp [PersonRow.live, Person.toRow, h2], rfl⟩
    obtain ⟨r, hr, _, hn, hfirst⟩ := dbFirstPerson_some db
      { st with peopleSeq := st.peopleSeq + 1, people := st.people ++ [({ req with
          CreatedAt := if req.CreatedAt = 0 then now else req.CreatedAt,
          UpdatedAt := if req.UpdatedAt = 0 then now else req.UpdatedAt,
          ID := st.peopleSeq } : Person).toRow] } id st.peopleSeq hkey hex
    simp only [List.mem_append, List.mem_singleton] at hr
    rcases hr with hr | hr
    · exact absurd hn (hfresh r hr)
    · subst hr
      refine ⟨{ ID := st.peopleSeq,
                CreatedAt := if req.CreatedAt = 0 then now else req.CreatedAt,
                UpdatedAt := if req.UpdatedAt = 0 then now else req.UpdatedAt,
                DeletedAt := req.DeletedAt, Name := req.Name, Skills := req.Skills,
                Email := req.Email,
                Addresses := (st.addresses.filter
                  (fun a => a.live && a.PersonID == st.peopleSeq)) }, ?_, ?_⟩
      · unfold getPerson
        simp only [hfirst]
        simp [PersonRow.toPerson, Person.toRow, hseq, ResponseWriter.fresh,
          ResponseWriter.write, dbRelated]
      · simp
theorem createPerson_then_getPerson_witness :
    isEmailValid "bob@x.io" = true ∧
    ∃ st1 created,
      createPerson sampleBackend 50 sampleStore
          { Person.zero with Name := "Bob", Skills := "C", Email := "bob@x.io" }
        = (st1, ⟨some 200, [Chunk.encode (Payload.result created 1)]⟩) ∧
      ∀ id, keyOf id = some created.ID →
        ∃ got, getPerson sampleBackend st1 id
            = ⟨some 200, [Chunk.encode (Payload.person got)]⟩ ∧
          got.ID = created.ID ∧ got.Name = "Bob" ∧ got.Skills = "C" ∧ got.Email = "bob@x.io" :=
  ⟨by decide,
   createPerson_then_getPerson sampleBackend 50 sampleStore
     { Person.zero with Name := "Bob", Skills := "C", Email := "bob@x.io" }
     (by decide) (by decide) (by decide) (by decide) (by decide)⟩

/-- C6 as stated fails in two ways.  An `Email` held only by a soft-deleted row is
used by no live row, yet the unique index rejects it and the create is answered
500.  And after a create whose body carried the `ID` 1, which leaves the sequence
at 1, the next create without an `ID` is answered 500 for the taken key. -/
theorem createPerson_rejected_with_500 :
    (isEmailValid "bob@x.io" = true ∧
      (∀ r ∈ deletedStore.people, r.live = true → r.Email ≠ "bob@x.io") ∧
      createPerson sampleBackend 50 deletedStore
          { Person.zero with Name := "Bob", Skills := "C", Email := "bob@x.io" }
        = ({ deletedStore with peopleSeq := 3 }, ⟨some 500, [Chunk.errorLine emailViolation]⟩)) ∧
    ((createPerson sampleBackend 50 emptyStore
          { Person.zero with ID := 1, Name := "Ann", Email := "ann@x.io" }).2.status = some 200 ∧
      (createPerson sampleBackend 51
          (createPerson sampleBackend 50 emptyStore
            { Person.zero with ID := 1, Name := "Ann", Email := "ann@x.io" }).1
          { Person.zero with Name := "Bob", Skills := "C", Email := "bob@x.io" }).2
        = ⟨some 500, [Chunk.errorLine pkeyViolation]⟩) := by
  decide

/-- C8 fails on the code: the body of `deleteAddress` is never just `{"ID": id}`.  The
`Encode` after the response is a second write to the body, not dead code: for the
live address 1 the body is `{"ID":"1"}` followed by the JSON text of that address,
on the empty store it is followed by the JSON text of the zero `Address`, and for
every store and id it is followed by the JSON text of the address that was fetched.
The status is 200 throughout. -/
theorem deleteAddress_body_has_second_write :
    ((deleteAddress sampleBackend 50 sampleStore "1").2 =
        ⟨some 200, [Chunk.marshal (Payload.idMap "1"), Chunk.encode (Payload.address home)]⟩ ∧
      (deleteAddress sampleBackend 50 emptyStore "1").2 =
        ⟨some 200, [Chunk.marshal (Payload.idMap "1"),
          Chunk.encode (Payload.address Address.zero)]⟩ ∧
      (deleteAddress sampleBackend 50 sampleStore "1").2.body
        ≠ [Chunk.marshal (Payload.idMap "1")]) ∧
    (∀ (db : Backend) (now : Time) (st : Store) (id : String),
      (deleteAddress db now st id).2 =
        ⟨some 200, [Chunk.marshal (Payload.idMap id),
          Chunk.encode (Payload.address (dbFirstAddress db st id))]⟩ ∧
      (deleteAddress db now st id).2.body ≠ [Chunk.marshal (Payload.idMap id)]) := by
  refine ⟨by decide, ?_⟩
  intro db now st id
  refine ⟨rfl, ?_⟩
  intro h
  have hlen := congrArg List.length h
  simp [deleteAddress, ResponseWriter.fresh, ResponseWriter.writeHeader,
    ResponseWriter.write] at hlen

/-- C9 fails on the code: `deletePerson` for id 1 on a store with the live persons 1
and 2 soft-deletes person 2 as well; whatever the id, every live person row is
soft-deleted. -/
theorem deletePerson_deletes_every_person :
    (carol ∈ sampleStore.people ∧ carol.ID ≠ 1 ∧ carol.live = true ∧
      (deletePerson 50 51 sampleStore "1").1.people =
        [{ alice with DeletedAt := some 51 }, { carol with DeletedAt := some 51 }] ∧
      (deletePerson 50 51 sampleStore "1").1.addresses =
        [{ home with DeletedAt := some 50 }, office]) ∧
    (∀ (tA tP : Time) (st : Store) (id : String),
      (deletePerson tA tP st id).1.people =
        st.people.map (fun r => if r.live then { r with DeletedAt := some tP } else r)) := by
  refine ⟨by decide, ?_⟩
  intro tA tP st id
  simp only [deletePerson, dbDeletePerson, dbDeleteAddressesOf, Person.zero]
  cases pgInt id <;> simp

/-- C10 fails on the code: `deleteAddress` for id 9, which no address row has,
soft-deletes every live address; so it does for every decimal id no live row has. -/
theorem deleteAddress_missing_deletes_every_address :
    ((∀ a ∈ sampleStore.addresses, a.ID ≠ 9) ∧
      (deleteAddress sampleBackend 50 sampleStore "9").1.addresses =
        [{ home with DeletedAt := some 50 }, { office with DeletedAt := some 50 }] ∧
      (deleteAddress sampleBackend 50 sampleStore "9").1.addresses ≠ sampleStore.addresses) ∧
    (∀ (db : Backend) (now : Time) (st : Store) (id : String) (n : Nat),
      keyOf id = some n → (¬ ∃ a ∈ st.addresses, a.live = true ∧ a.ID = n) →
      (deleteAddress db now st id).1.addresses =
        st.addresses.map (fun a => if a.live then { a with DeletedAt := some now } else a)) := by
  refine ⟨by decide, ?_⟩
  intro db now st id n hkey hno
  simp [deleteAddress, dbDeleteAddress, dbFirstAddress_none db st id n hkey hno, Address.zero]

/-- C3 as stated fails: the path value `true` is the id of no person row, and it is no
key at all; the ORM puts it into the WHERE clause as SQL text, the first live
person is found, and `getPerson` answers 200. -/
theorem getPerson_sql_text_found :
    (∀ r ∈ sampleStore.people, toString r.ID ≠ "true") ∧ keyOf "true" = none ∧
    getPerson sqlBackend sampleStore "true" =
      ⟨some 200, [Chunk.encode (Payload.person { alice.toPerson with Addresses := [home] })]⟩ := by
  decide

/-- C7 as stated fails: no person row has the id `true`, yet with SQL text for a path
value `updatePerson` finds the first live person and goes on to the email check:
it answers 400 where the claim has 404. -/
theorem updatePerson_sql_text_found :
    (∀ r ∈ sampleStore.people, toString r.ID ≠ "true") ∧ keyOf "true" = none ∧
    updatePerson sqlBackend 50 sampleStore "true" { Person.zero with Email := "not an email" }
      = (sampleStore, ⟨some 400, [Chunk.errorLine "invalid email"]⟩) := by
  decide

end JobSeekers
